import Mathlib

/-!
Verification of the minimal-app tree-shaking optimizer core
(src/minimal_app: semantic.py, optimizer.py, minifier.py) against its
design specification.

The Python AST fragment the optimizer manipulates is modelled as a closed
tagged union (spec section 3): Module bodies are lists of statements;
the node kinds the core recognizes are function/class declarations,
imports, call and attribute expressions, name references, string
literals and the pass statement.  An assignment statement form carries
an embedded expression so that call sites occurring in assignments
(the common shape in the examples) are visible to the analyzer, exactly
as ast.NodeVisitor.generic_visit reaches them.

Module discovery, parsing and file writing are external collaborators
(spec sections 1 and 6); the functions below take the discovered module
set as input and model the pure analysis, pruning and rewriting passes.
-/

namespace MinimalApp

/-- Canonical suffix appended to module-name components and to the entry
function name (constant SUFFIX in optimizer.py). -/
def SUFFIX : String := "__ma"

/-- Import alias, modelling ast.alias: the imported (dotted) name and the
optional local rebinding. -/
structure ImportAlias where
  name : String
  asname : Option String

/-- Expression fragment of the syntax-tree model (spec section 3):
name references, attribute accesses, string literals and calls. -/
inductive Expr where
  | nameRef (id : String)
  | attrAccess (base : Expr) (attrName : String)
  | strLit (s : String)
  | call (func : Expr) (args : List Expr)

/-- Statement fragment of the syntax-tree model (spec section 3).
Function declarations carry an is-async flag because both transformers
treat ast.AsyncFunctionDef identically to ast.FunctionDef. -/
inductive Stmt where
  | functionDef (name : String) (body : List Stmt) (isAsync : Bool)
  | classDef (name : String) (body : List Stmt)
  | importStmt (names : List ImportAlias)
  | importFrom (module : Option String) (names : List ImportAlias)
  | exprStmt (e : Expr)
  | assign (target : String) (value : Expr)
  | passStmt

/-! ## String utilities

The Python code builds fully-qualified names by formatting and takes them
apart with str.split(sep, 1) / str.split(sep); these are the corresponding
operations on the character list underlying a String. -/

/-- Split a character list at the first occurrence of a character,
returning the parts before and after it, or none when absent. -/
def splitFirstList (c : Char) : List Char → Option (List Char × List Char)
  | [] => none
  | x :: xs =>
      if x = c then some ([], xs)
      else
        match splitFirstList c xs with
        | none => none
        | some (a, b) => some (x :: a, b)

/-- Split a string at the first occurrence of a character: the model of
Python s.split(c, 1) succeeding with two parts; none models the
single-part result (separator absent). -/
def splitFirst (c : Char) (s : String) : Option (String × String) :=
  match splitFirstList c s.data with
  | none => none
  | some (a, b) => some (String.mk a, String.mk b)

/-- Split a character list at every occurrence of a character, the model
of Python s.split(c) (always at least one component). -/
def splitAllList (c : Char) : List Char → List (List Char)
  | [] => [[]]
  | x :: xs =>
      match splitAllList c xs with
      | [] => [[]]
      | h :: t => if x = c then [] :: h :: t else (x :: h) :: t

/-- First dotted component of a name: Python s.split(".")[0]. -/
def firstComponent (s : String) : String :=
  match splitFirst '.' s with
  | none => s
  | some (a, _) => a

/-- Model of optimizer.py _suffix_module_name: append SUFFIX to every
dotted component of a module name. -/
def suffixModuleName (name : String) : String :=
  String.intercalate "." ((splitAllList '.' name.data).map (fun p => String.mk p ++ SUFFIX))

/-- First-match association-list lookup; combined with prepend-on-update
this models Python dict assignment (later bindings shadow earlier ones). -/
def lookupA {α : Type} : List (String × α) → String → Option α
  | [], _ => none
  | (k, v) :: rest, key => if k = key then some v else lookupA rest key

/-- Concatenate a list of lists. -/
def concatAll {α : Type} : List (List α) → List α
  | [] => []
  | l :: ls => l ++ concatAll ls

/-! ## Shared docstring handling

Both MinifierTransformer and PruneTransformer test whether the first
statement of a body is a bare string-literal expression statement and, if
so (and docstring keeping is off), drop it. -/

/-- True for a bare string-literal expression statement: the
isinstance(first, ast.Expr) and isinstance(first.value, ast.Constant) and
isinstance(first.value.value, str) test shared by both transformers. -/
def isDocstring : Stmt → Bool
  | .exprStmt (.strLit _) => true
  | _ => false

/-- Drop a leading documentation literal when docstring keeping is off;
an empty body or a non-docstring head is left unchanged. -/
def stripLeadingDoc (keepDocstrings : Bool) : List Stmt → List Stmt
  | [] => []
  | s :: rest => if !keepDocstrings && isDocstring s then rest else s :: rest

/-! ## Minifier (minifier.py, MinifierTransformer)

visit_Module strips a leading module docstring and recurses; the
function/class visitors strip a leading docstring, substitute a pass
statement if the body became empty, then recurse into children. -/

mutual

/-- Model of MinifierTransformer statement visitation: function, async
function and class declarations get their leading docstring stripped
(with pass substituted for an emptied body) and their children visited;
all other statements pass through unchanged. -/
def minifyStmt (keepDocstrings : Bool) : Stmt → Stmt
  | .functionDef n b a => .functionDef n (minifyDefBody keepDocstrings b) a
  | .classDef n b => .classDef n (minifyDefBody keepDocstrings b)
  | s => s
termination_by structural s => s

/-- Body handling of MinifierTransformer.visit_FunctionDef,
visit_AsyncFunctionDef and visit_ClassDef: strip a leading docstring,
substitute pass if the body is then empty, and visit the remaining
statements. -/
def minifyDefBody (keepDocstrings : Bool) (b : List Stmt) : List Stmt :=
  match b with
  | [] => [.passStmt]
  | s :: rest =>
      if !keepDocstrings && isDocstring s then
        match rest with
        | [] => [.passStmt]
        | _ => minifyBody keepDocstrings rest
      else
        minifyStmt keepDocstrings s :: minifyBody keepDocstrings rest
termination_by structural b

/-- Visit every statement of a body with minifyStmt (generic_visit over a
statement list; the minifier never removes statements). -/
def minifyBody (keepDocstrings : Bool) : List Stmt → List Stmt
  | [] => []
  | s :: r => minifyStmt keepDocstrings s :: minifyBody keepDocstrings r
termination_by structural l => l

end

/-- Model of MinifierTransformer.visit_Module: strip a leading module
docstring (no pass substitution at module level in the minifier), then
visit the remaining statements. -/
def minifyModuleBody (keepDocstrings : Bool) (body : List Stmt) : List Stmt :=
  minifyBody keepDocstrings (stripLeadingDoc keepDocstrings body)

/-! ## Semantic analyzer (semantic.py, SemanticAnalyzer)

The visitor records declared symbols by fully-qualified name, trackes the
lexically enclosing class and function, accumulates import bindings, and
records call edges resolved by the conservative policy of visit_Call.
Symbols are recorded here by fully-qualified name only: the remaining
Symbol payload (kind, node, position, used_by) is never consulted by the
reachability computation or the pruner, whose claims are in scope. -/

/-- Analyzer state threaded through the traversal: recorded symbol names,
call edges (caller, callee), and the two import-binding maps
(local alias to module name, and local alias to module:symbol). -/
structure AnalyzerState where
  symbols : List String
  edges : List (String × String)
  imports : List (String × String)
  fromImports : List (String × String)

/-- Analyzer state at the start of a module walk. -/
def emptyAnalyzerState : AnalyzerState :=
  { symbols := [], edges := [], imports := [], fromImports := [] }

/-- Model of SemanticAnalyzer._current_symbol_name: the fully-qualified
name of the enclosing function or method, none at module top level. -/
def currentSymbolName (moduleName : String) (currentClass currentFunction : Option String) :
    Option String :=
  match currentFunction with
  | none => none
  | some f =>
      match currentClass with
      | some c => some (moduleName ++ ":" ++ c ++ "." ++ f)
      | none => some (moduleName ++ ":" ++ f)

/-- Model of SemanticAnalyzer._add_edge: record a caller-to-callee edge,
or drop the call silently when made from module top level. -/
def addEdge (st : AnalyzerState) (moduleName : String) (cc cf : Option String)
    (callee : String) : AnalyzerState :=
  match currentSymbolName moduleName cc cf with
  | none => st
  | some caller => { st with edges := st.edges ++ [(caller, callee)] }

/-- Record a declared symbol by fully-qualified name. -/
def addSymbol (st : AnalyzerState) (fq : String) : AnalyzerState :=
  { st with symbols := st.symbols ++ [fq] }

/-- Model of SemanticAnalyzer.visit_Import: bind each alias (the asname,
or the first dotted component when there is none) to the full module
name. -/
def bindImports (st : AnalyzerState) : List ImportAlias → AnalyzerState
  | [] => st
  | al :: rest =>
      let localName := match al.asname with | some a => a | none => firstComponent al.name
      bindImports { st with imports := (localName, al.name) :: st.imports } rest

/-- Model of SemanticAnalyzer.visit_ImportFrom for a present module:
bind each alias to the module:symbol form. -/
def bindFromImports (st : AnalyzerState) (m : String) : List ImportAlias → AnalyzerState
  | [] => st
  | al :: rest =>
      let localName := match al.asname with | some a => a | none => al.name
      bindFromImports
        { st with fromImports := (localName, m ++ ":" ++ al.name) :: st.fromImports } m rest

/-- Model of the callee-resolution policy of SemanticAnalyzer.visit_Call:
a bare name resolves through the from-import bindings, else to a symbol
of the current module; an attribute call on the receiver name self inside
a class resolves to a method of that class; an attribute call on an
import-bound name resolves to that module; every other callee shape is
unresolved. -/
def resolveCallee (moduleName : String) (currentClass : Option String)
    (st : AnalyzerState) : Expr → Option String
  | .nameRef target =>
      match lookupA st.fromImports target with
      | some fq => some fq
      | none => some (moduleName ++ ":" ++ target)
  | .attrAccess (.nameRef base) attrName =>
      match (if base = "self" then currentClass else none) with
      | some c => some (moduleName ++ ":" ++ c ++ "." ++ attrName)
      | none =>
          match lookupA st.imports base with
          | some m => some (m ++ ":" ++ attrName)
          | none => none
  | _ => none

mutual

/-- Model of the SemanticAnalyzer statement visitors: declarations are
recorded by fully-qualified name (kind method when a class is lexically
enclosing) and recursed into with the lexical context updated; imports
update the binding maps; other statements only have their embedded
expressions visited. -/
def anStmt (moduleName : String) (cc cf : Option String) (st : AnalyzerState) :
    Stmt → AnalyzerState
  | .functionDef n b _ =>
      let fq :=
        match cc with
        | some c => moduleName ++ ":" ++ c ++ "." ++ n
        | none => moduleName ++ ":" ++ n
      anBody moduleName cc (some n) (addSymbol st fq) b
  | .classDef n b =>
      anBody moduleName (some n) cf (addSymbol st (moduleName ++ ":" ++ n)) b
  | .importStmt names => bindImports st names
  | .importFrom none _ => st
  | .importFrom (some m) names => bindFromImports st m names
  | .exprStmt e => anExpr moduleName cc cf st e
  | .assign _ v => anExpr moduleName cc cf st v
  | .passStmt => st
termination_by structural s => s

/-- Visit a statement list in order, threading the analyzer state. -/
def anBody (moduleName : String) (cc cf : Option String) (st : AnalyzerState) :
    List Stmt → AnalyzerState
  | [] => st
  | s :: r => anBody moduleName cc cf (anStmt moduleName cc cf st s) r
termination_by structural l => l

/-- Model of SemanticAnalyzer.visit_Call and generic expression
visitation: a call records an edge when its callee resolves and the
lexical position is inside a function or method, then its callee
expression and arguments are visited; attribute accesses visit their
base. -/
def anExpr (moduleName : String) (cc cf : Option String) (st : AnalyzerState) :
    Expr → AnalyzerState
  | .call f args =>
      let st1 :=
        match resolveCallee moduleName cc st f with
        | some callee => addEdge st moduleName cc cf callee
        | none => st
      anExprList moduleName cc cf (anExpr moduleName cc cf st1 f) args
  | .attrAccess b _ => anExpr moduleName cc cf st b
  | .nameRef _ => st
  | .strLit _ => st
termination_by structural e => e

/-- Visit an expression list in order, threading the analyzer state. -/
def anExprList (moduleName : String) (cc cf : Option String) (st : AnalyzerState) :
    List Expr → AnalyzerState
  | [] => st
  | e :: r => anExprList moduleName cc cf (anExpr moduleName cc cf st e) r
termination_by structural l => l

end

/-- Model of analyze_module / the per-module walk in build_call_graph:
visit a module body with empty lexical context and fresh state. -/
def analyzeModule (moduleName : String) (body : List Stmt) : AnalyzerState :=
  anBody moduleName none none emptyAnalyzerState body

/-! ## Call graph and reachability (semantic.py) -/

/-- Model of the CallGraph record: entrypoint, declared symbol names,
caller-to-callee edges, and the raw reachable set from traversal. -/
structure CallGraph where
  entrypoint : String
  nodes : List String
  edges : List (String × String)
  reachable : List String

/-- Callees of a symbol in the merged edge list: cg.edges.get(symbol, ()). -/
def successors (edges : List (String × String)) (sym : String) : List String :=
  (edges.filter (fun e => decide (e.1 = sym))).map (fun e => e.2)

/-- Model of the worklist loop in build_call_graph: pop a symbol, skip it
when already visited, otherwise mark it visited and push its not-yet
visited callees.  The fuel argument only bounds the number of loop
iterations; build_call_graph supplies enough for the loop to run until
the stack empties. -/
def dfsLoop (edges : List (String × String)) : Nat → List String → List String → List String
  | 0, visited, _ => visited
  | _ + 1, visited, [] => visited
  | fuel + 1, visited, sym :: stack =>
      if sym ∈ visited then dfsLoop edges fuel visited stack
      else
        let visited2 := visited ++ [sym]
        dfsLoop edges fuel visited2
          (((successors edges sym).filter (fun c => decide (¬ c ∈ visited2))) ++ stack)

/-- Model of build_call_graph (semantic.py): analyze every module, merge
the recorded symbols and edges, then run the reachability traversal from
the entrypoint string.  One pop either consumes the entry symbol or a
pushed callee, and at most one callee is pushed per merged edge pair, so
length of edges plus two iterations always suffice for the loop to
terminate with an empty stack. -/
def buildCallGraph (modules : List (String × List Stmt)) (entrypoint : String) : CallGraph :=
  let states := modules.map (fun m => analyzeModule m.1 m.2)
  let nodes := concatAll (states.map AnalyzerState.symbols)
  let edges := concatAll (states.map AnalyzerState.edges)
  let reachable := dfsLoop edges (edges.length + 2) [] [entrypoint]
  { entrypoint := entrypoint, nodes := nodes, edges := edges, reachable := reachable }

/-- Model of compute_reachable_symbols (semantic.py): for every reachable
name of the method shape module:Class.method, add the owning class name,
and add the constructor name module:Class.__init__ when it exists in the
symbol table; names without a colon are skipped, names whose remainder
has no dot contribute nothing. -/
def computeReachableSymbols (cg : CallGraph) : List String :=
  let extra := concatAll (cg.reachable.map (fun fq =>
    match splitFirst ':' fq with
    | none => []
    | some (m, rest) =>
        match splitFirst '.' rest with
        | none => []
        | some (className, _) =>
            let classSym := m ++ ":" ++ className
            let initSym := m ++ ":" ++ className ++ ".__init__"
            if initSym ∈ cg.nodes then [classSym, initSym] else [classSym]))
  cg.reachable ++ extra

/-! ## Pruner (optimizer.py, PruneTransformer) -/

/-- Constructor parameters of PruneTransformer. -/
structure PruneCtx where
  moduleName : String
  reachableSymbols : List String
  keepDocstrings : Bool
  entryFunction : Option String

/-- Model of PruneTransformer._symbol_name: the fully-qualified name of a
declaration given the enclosing class context. -/
def symbolName (moduleName : String) (currentClass : Option String) (name : String) : String :=
  match currentClass with
  | some c => moduleName ++ ":" ++ c ++ "." ++ name
  | none => moduleName ++ ":" ++ name

/-- Model of PruneTransformer._class_symbol. -/
def classSymbol (moduleName className : String) : String :=
  moduleName ++ ":" ++ className

/-- Keep decision of PruneTransformer.visit_FunctionDef: the declaration
survives when its fully-qualified name is reachable, or it is the entry
function at non-class level, or it is the constructor of a class whose
own fully-qualified name is reachable. -/
def keepFunction (ctx : PruneCtx) (currentClass : Option String) (name : String) : Bool :=
  decide (symbolName ctx.moduleName currentClass name ∈ ctx.reachableSymbols)
  || (currentClass.isNone && decide (ctx.entryFunction = some name))
  || (match currentClass with
      | some c =>
          decide (name = "__init__")
            && decide (classSymbol ctx.moduleName c ∈ ctx.reachableSymbols)
      | none => false)

/-- Renaming rule of PruneTransformer.visit_FunctionDef: only the entry
function, at non-class level, gets SUFFIX appended to its own name. -/
def outputFunName (ctx : PruneCtx) (currentClass : Option String) (name : String) : String :=
  if currentClass.isNone && decide (ctx.entryFunction = some name) then name ++ SUFFIX
  else name

/-- Post-processing of PruneTransformer.visit_ClassDef after its
generic_visit has pruned the class body: strip a leading class docstring,
keep the class iff its own fully-qualified name is reachable or some
method declaration remains, and substitute pass for an emptied body of a
kept class. -/
def pruneClassPost (ctx : PruneCtx) (name : String) (prunedBody : List Stmt) : Option Stmt :=
  let body2 := stripLeadingDoc ctx.keepDocstrings prunedBody
  let hasMethods := body2.any (fun s =>
    match s with
    | .functionDef _ _ _ => true
    | _ => false)
  if !decide (classSymbol ctx.moduleName name ∈ ctx.reachableSymbols) && !hasMethods then none
  else some (.classDef name (if body2.isEmpty then [.passStmt] else body2))

mutual

/-- Model of the PruneTransformer visitors.  A function declaration is
dropped (removed from the enclosing body) unless the keep decision holds;
a kept one is renamed by the entry rule, has its leading docstring
stripped and pass substituted for an emptied body, and only then has its
children visited (the source order: the empty-body fixup precedes
generic_visit).  A class declaration has its body pruned first (with the
class pushed as context), then the class-level docstring strip and keep
decision are applied.  All other statements pass through unchanged. -/
def pruneStmt (ctx : PruneCtx) (cc : Option String) : Stmt → Option Stmt
  | .functionDef n b a =>
      if keepFunction ctx cc n then
        some (.functionDef (outputFunName ctx cc n) (pruneDefBody ctx cc b) a)
      else none
  | .classDef n b => pruneClassPost ctx n (pruneBody ctx (some n) b)
  | s => some s
termination_by structural s => s

/-- Body handling of a kept function declaration, in source order: strip
a leading docstring when docstring keeping is off, substitute pass if the
body is empty at that point, then prune the (remaining) child statements. -/
def pruneDefBody (ctx : PruneCtx) (cc : Option String) (b : List Stmt) : List Stmt :=
  match b with
  | [] => [.passStmt]
  | s :: rest =>
      if !ctx.keepDocstrings && isDocstring s then
        match rest with
        | [] => [.passStmt]
        | _ => pruneBody ctx cc rest
      else
        match pruneStmt ctx cc s with
        | none => pruneBody ctx cc rest
        | some s2 => s2 :: pruneBody ctx cc rest
termination_by structural b

/-- Prune every statement of a body, removing the dropped ones
(generic_visit over a statement list under ast.NodeTransformer). -/
def pruneBody (ctx : PruneCtx) (cc : Option String) : List Stmt → List Stmt
  | [] => []
  | s :: r =>
      match pruneStmt ctx cc s with
      | none => pruneBody ctx cc r
      | some s2 => s2 :: pruneBody ctx cc r
termination_by structural l => l

end

/-- Module-docstring handling of PruneTransformer.visit_Module: drop a
leading module docstring when docstring keeping is off, substituting pass
when that empties the module body; an empty module body stays empty. -/
def moduleDocStripped (keepDocstrings : Bool) (body : List Stmt) : List Stmt :=
  match body with
  | [] => []
  | s :: rest =>
      if !keepDocstrings && isDocstring s then
        match rest with
        | [] => [.passStmt]
        | _ => rest
      else s :: rest

/-- Model of PruneTransformer.visit_Module: drop a leading module
docstring when docstring keeping is off (substituting pass when that
empties the module body), then prune the statements. -/
def pruneModuleBody (ctx : PruneCtx) (body : List Stmt) : List Stmt :=
  pruneBody ctx none (moduleDocStripped ctx.keepDocstrings body)

/-! ## Import rewriter (optimizer.py, ImportRewriter) -/

/-- Alias handling of ImportRewriter.visit_Import: an alias whose full
dotted name is a key of the rename map is renamed, others are kept. -/
def rewriteAliases (renames : List (String × String)) : List ImportAlias → List ImportAlias
  | [] => []
  | al :: rest =>
      (match lookupA renames al.name with
       | some newName => { al with name := newName }
       | none => al) :: rewriteAliases renames rest

mutual

/-- Model of ImportRewriter: rewrite the module reference of Import and
ImportFrom statements through the rename map (an absent or empty
ImportFrom module is left alone, matching the truthiness test in
visit_ImportFrom), and recurse into declaration bodies as generic_visit
does; no statement is ever removed. -/
def rewriteStmt (renames : List (String × String)) : Stmt → Stmt
  | .importStmt names => .importStmt (rewriteAliases renames names)
  | .importFrom m names =>
      .importFrom
        (match m with
         | none => none
         | some mm =>
             if mm = "" then some mm
             else
               match lookupA renames mm with
               | some newName => some newName
               | none => some mm)
        names
  | .functionDef n b a => .functionDef n (rewriteBody renames b) a
  | .classDef n b => .classDef n (rewriteBody renames b)
  | s => s
termination_by structural s => s

/-- Rewrite every statement of a body. -/
def rewriteBody (renames : List (String × String)) : List Stmt → List Stmt
  | [] => []
  | s :: r => rewriteStmt renames s :: rewriteBody renames r
termination_by structural l => l

end

/-- Model of the module-rename map of optimize_project step 4: every
discovered module name maps to its suffixed form. -/
def moduleRenames (moduleNames : List String) : List (String × String) :=
  moduleNames.map (fun n => (n, suffixModuleName n))

/-! ## Pipeline (optimizer.py, optimize_project)

Discovery, parsing and writing are I/O collaborators; the model takes
the discovered module set (name, parsed tree) in discovery order and
returns either the reported error or the per-module outputs
(renamed module name, pruned and import-rewritten tree) that would be
handed to the renderer.  An error result carries no outputs, matching
the source where both input checks raise before any module is pruned or
written. -/

/-- Model of optimize_project: reject an entrypoint without a colon;
split it at the first colon; reject an entry module outside the
discovered set; otherwise build the call graph, close the reachable set,
compute the rename map, and prune and rewrite every module. -/
def optimizeProject (modules : List (String × List Stmt)) (entrypoint : String)
    (keepDocstrings : Bool) : Except String (List (String × List Stmt)) :=
  match splitFirst ':' entrypoint with
  | none => .error ("Invalid entrypoint format: " ++ entrypoint ++ ". Expected module:function.")
  | some (entryModule, entryFunc) =>
      if entryModule ∈ modules.map Prod.fst then
        let cg := buildCallGraph modules entrypoint
        let reachable := computeReachableSymbols cg
        let renames := moduleRenames (modules.map Prod.fst)
        .ok (modules.map (fun m =>
          let ctx : PruneCtx :=
            { moduleName := m.1, reachableSymbols := reachable,
              keepDocstrings := keepDocstrings,
              entryFunction := if m.1 = entryModule then some entryFunc else none }
          (suffixModuleName m.1, rewriteBody renames (pruneModuleBody ctx m.2))))
      else .error ("Entrypoint module " ++ entryModule ++ " not found under the input root.")

/-! ## Observers used to state properties about trees -/

/-- True when a statement is a function declaration with the given name. -/
def isFunctionNamed (name : String) : Stmt → Bool
  | .functionDef n _ _ => decide (n = name)
  | _ => false

/-- True when a body contains a top-level function declaration with the
given name. -/
def topLevelHasFunction (body : List Stmt) (name : String) : Bool :=
  body.any (isFunctionNamed name)

mutual

/-- Count function declarations with the given name anywhere in a
statement, at any nesting depth. -/
def countFunctionsNamed (name : String) : Stmt → Nat
  | .functionDef n b _ => (if n = name then 1 else 0) + countFunctionsNamedList name b
  | .classDef _ b => countFunctionsNamedList name b
  | _ => 0
termination_by structural s => s

/-- Count function declarations with the given name anywhere in a body. -/
def countFunctionsNamedList (name : String) : List Stmt → Nat
  | [] => 0
  | s :: r => countFunctionsNamed name s + countFunctionsNamedList name r
termination_by structural l => l

end

/-- Names of the function declarations directly in a body. -/
def declaredFunctionNames : List Stmt → List String
  | [] => []
  | .functionDef n _ _ :: r => n :: declaredFunctionNames r
  | _ :: r => declaredFunctionNames r

/-- Body of the first class declaration with the given name in a body. -/
def findClassBody : List Stmt → String → Option (List Stmt)
  | [], _ => none
  | .classDef n b :: r, name => if n = name then some b else findClassBody r name
  | _ :: r, name => findClassBody r name

/-- Output tree of a named module in an optimize_project result, empty
when the run failed or the module is absent. -/
def resultModule (r : Except String (List (String × List Stmt))) (name : String) : List Stmt :=
  match r with
  | .error _ => []
  | .ok l =>
      match lookupA l name with
      | some t => t
      | none => []

mutual

/-- True when an expression contains no call node. -/
def callFreeExpr : Expr → Bool
  | .call _ _ => false
  | .attrAccess b _ => callFreeExpr b
  | .nameRef _ => true
  | .strLit _ => true
termination_by structural e => e

/-- True when no expression of the list contains a call node. -/
def callFreeExprList : List Expr → Bool
  | [] => true
  | e :: r => callFreeExpr e && callFreeExprList r
termination_by structural l => l

end

mutual

/-- True when a statement contains no call expression at any depth. -/
def callFreeStmt : Stmt → Bool
  | .functionDef _ b _ => callFreeBody b
  | .classDef _ b => callFreeBody b
  | .exprStmt e => callFreeExpr e
  | .assign _ v => callFreeExpr v
  | _ => true
termination_by structural s => s

/-- True when no statement of the body contains a call expression. -/
def callFreeBody : List Stmt → Bool
  | [] => true
  | s :: r => callFreeStmt s && callFreeBody r
termination_by structural l => l

end

/-- True when no module of the project contains a call expression. -/
def callFreeModules (modules : List (String × List Stmt)) : Bool :=
  modules.all (fun m => callFreeBody m.2)

mutual

/-- Module references of the import statements anywhere in a statement:
the full dotted alias names of Import and the module field of ImportFrom. -/
def importedModulesStmt : Stmt → List String
  | .importStmt names => names.map (fun al => al.name)
  | .importFrom (some m) _ => [m]
  | .importFrom none _ => []
  | .functionDef _ b _ => importedModulesBody b
  | .classDef _ b => importedModulesBody b
  | _ => []
termination_by structural s => s

/-- Module references of the import statements anywhere in a body. -/
def importedModulesBody : List Stmt → List String
  | [] => []
  | s :: r => importedModulesStmt s ++ importedModulesBody r
termination_by structural l => l

end

/-- Apply a rename map to a module reference: mapped names are replaced,
unmapped ones kept. -/
def applyRename (renames : List (String × String)) (m : String) : String :=
  match lookupA renames m with
  | some v => v
  | none => m

/-- True when the head of a body is a documentation literal. -/
def headIsDoc : List Stmt → Bool
  | s :: _ => isDocstring s
  | [] => false

mutual

/-- True when no declaration body inside the statement starts with a
documentation literal. -/
def noLeadDocStmt : Stmt → Bool
  | .functionDef _ b _ => !headIsDoc b && noLeadDocList b
  | .classDef _ b => !headIsDoc b && noLeadDocList b
  | _ => true
termination_by structural s => s

/-- True when no declaration body inside any statement of the list starts
with a documentation literal. -/
def noLeadDocList : List Stmt → Bool
  | [] => true
  | s :: r => noLeadDocStmt s && noLeadDocList r
termination_by structural l => l

end

/-- True when neither the module body nor any declaration body inside it
starts with a documentation literal. -/
def noLeadingDocModule (body : List Stmt) : Bool :=
  !headIsDoc body && noLeadDocList body

mutual

/-- Well-formedness of parsed trees: every function and class declaration
has a non-empty body (the Python grammar guarantees this for parser
output). -/
def wfStmt : Stmt → Bool
  | .functionDef _ b _ => !b.isEmpty && wfList b
  | .classDef _ b => !b.isEmpty && wfList b
  | _ => true
termination_by structural s => s

/-- Well-formedness of every statement of a body. -/
def wfList : List Stmt → Bool
  | [] => true
  | s :: r => wfStmt s && wfList r
termination_by structural l => l

end

/-! ## Concrete projects used as test inputs

ctorApp and ctorLib form the minimal direct-constructor-call project:
the handler calls the from-imported class DataFrame, so the class is
reachable through a call edge while none of its methods is. -/

/-- Module app of the direct-constructor-call project: handler calls the
from-imported DataFrame class. -/
def ctorAppBody : List Stmt :=
  [ .importFrom (some "lib") [{ name := "DataFrame", asname := none }],
    .functionDef "handler" [.assign "df" (.call (.nameRef "DataFrame") [])] false ]

/-- Module lib of the direct-constructor-call project: class DataFrame
with a constructor and one method that is never called. -/
def ctorLibBody : List Stmt :=
  [ .classDef "DataFrame"
      [ .functionDef "__init__" [.passStmt] false,
        .functionDef "head" [.passStmt] false ] ]

/-- Call graph of the direct-constructor-call project from entry
app:handler. -/
def ctorGraph : CallGraph :=
  buildCallGraph [("app", ctorAppBody), ("lib", ctorLibBody)] "app:handler"

/-- Module app of Scenario A (spec section 8): handler calls
DataFrame(...) imported from lib, then head and sum on the resulting
values. -/
def scAAppBody : List Stmt :=
  [ .importFrom (some "lib") [{ name := "DataFrame", asname := none }],
    .functionDef "handler"
      [ .assign "df" (.call (.nameRef "DataFrame") []),
        .assign "head" (.call (.attrAccess (.nameRef "df") "head") []),
        .exprStmt (.call (.attrAccess (.nameRef "head") "sum") []) ] false ]

/-- Module lib of Scenario A: class DataFrame with constructor and
methods head, sum and unused. -/
def scALibBody : List Stmt :=
  [ .classDef "DataFrame"
      [ .functionDef "__init__" [.passStmt] false,
        .functionDef "head" [.exprStmt (.call (.nameRef "DataFrame") [])] false,
        .functionDef "sum" [.passStmt] false,
        .functionDef "unused" [.passStmt] false ] ]

/-- The Scenario A module set. -/
def scAModules : List (String × List Stmt) := [("app", scAAppBody), ("lib", scALibBody)]

/-- Pipeline result on Scenario A with entry app:handler. -/
def scAResult : Except String (List (String × List Stmt)) :=
  optimizeProject scAModules "app:handler" false

/-- Pruner parameters for the empty-body violation input: entry module m,
entry function f, nothing reachable. -/
def emptyBodyCtx : PruneCtx :=
  { moduleName := "m", reachableSymbols := [], keepDocstrings := false,
    entryFunction := some "f" }

/-- Module tree whose entry function f contains only the unreachable
nested function g. -/
def emptyBodyTree : List Stmt :=
  [.functionDef "f" [.functionDef "g" [.passStmt] false] false]

/-- Pruner parameters for the duplicate-rename input: entry function f,
with m:g reachable. -/
def dupRenameCtx : PruneCtx :=
  { moduleName := "m", reachableSymbols := ["m:g"], keepDocstrings := false,
    entryFunction := some "f" }

/-- Module tree with a top-level entry function f and a reachable
function g containing a nested function also named f. -/
def dupRenameTree : List Stmt :=
  [ .functionDef "f" [.passStmt] false,
    .functionDef "g" [.functionDef "f" [.passStmt] false] false ]

/-- Module body starting with two bare string-literal statements. -/
def twoDocBody : List Stmt :=
  [Stmt.exprStmt (Expr.strLit "first"), Stmt.exprStmt (Expr.strLit "second")]

/-- One-module call-free project: a class with a constructor and no call
expression anywhere. -/
def callFreeProject : List (String × List Stmt) :=
  [("lib", [Stmt.classDef "C" [Stmt.functionDef "__init__" [Stmt.passStmt] false]])]

/-! ## Claim theorems -/

/-- C2: on the direct-constructor-call project, the class lib:DataFrame
is reachable and its constructor exists in the symbol table, yet the
closed set returned by compute_reachable_symbols does not contain
lib:DataFrame.__init__ — the closure only adds a constructor when some
method of the class is reachable, contradicting the claim (and the
docstring of compute_reachable_symbols). -/
theorem constructor_missing_from_closed_set :
    "lib:DataFrame" ∈ ctorGraph.reachable ∧
    "lib:DataFrame.__init__" ∈ ctorGraph.nodes ∧
    "lib:DataFrame.__init__" ∉ computeReachableSymbols ctorGraph := by
  refine ⟨by decide, by decide, by decide⟩

/-- C3: pruning a module whose entry function body consists only of an
unreachable nested function leaves the kept (and renamed) entry function
with an empty body: the pass substitution runs before generic_visit, so
nested pruning can empty a surviving declaration, violating the
non-empty-body invariant. -/
theorem entry_function_left_with_empty_body :
    pruneModuleBody emptyBodyCtx emptyBodyTree = [Stmt.functionDef "f__ma" [] false] := by
  rfl

/-- C4 counterexample: on Scenario A, the methods head and sum of class
DataFrame do not survive the pipeline — attribute calls on local
variables resolve to no edge, so neither method is reachable and both
are pruned, contrary to the claim. -/
theorem scenario_a_methods_pruned :
    "head" ∉ declaredFunctionNames ((findClassBody (resultModule scAResult "lib__ma") "DataFrame").getD []) ∧
    "sum" ∉ declaredFunctionNames ((findClassBody (resultModule scAResult "lib__ma") "DataFrame").getD []) := by
  refine ⟨by decide, by decide⟩

/-- C4 amended: on Scenario A the pipeline keeps the class DataFrame
with exactly its constructor (the class is reachable through the direct
constructor call, so the pruner keeps its init method), removing head,
sum and unused; the app module keeps only the renamed handler with
its import rewritten to the suffixed lib module name. -/
theorem scenario_a_output :
    resultModule scAResult "lib__ma"
      = [Stmt.classDef "DataFrame" [Stmt.functionDef "__init__" [Stmt.passStmt] false]] ∧
    declaredFunctionNames (resultModule scAResult "app__ma") = ["handler__ma"] ∧
    importedModulesBody (resultModule scAResult "app__ma") = ["lib__ma"] := by
  refine ⟨rfl, rfl, rfl⟩

/-- C5 counterexample: in the call graph of the direct-constructor-call
project, the class lib:DataFrame and its constructor are both declared,
yet the edge map contains no edge from the class to its constructor —
build_call_graph adds no synthetic class-to-constructor edge. -/
theorem no_synthetic_constructor_edge :
    "lib:DataFrame" ∈ ctorGraph.nodes ∧
    "lib:DataFrame.__init__" ∈ ctorGraph.nodes ∧
    ("lib:DataFrame", "lib:DataFrame.__init__") ∉ ctorGraph.edges := by
  refine ⟨by decide, by decide, by decide⟩

/-- C1 counterexample: with entry function f, a reachable function g
containing a nested function also named f, pruning renames two
declarations to f__ma — the entry function is not the only declaration
renamed. -/
theorem two_declarations_renamed :
    countFunctionsNamedList "f__ma" dupRenameTree = 0 ∧
    countFunctionsNamedList "f__ma" (pruneModuleBody dupRenameCtx dupRenameTree) = 2 := by
  refine ⟨by decide, by decide⟩

/-- C7 counterexample: on a module body starting with two bare string
literals, one stripping pass removes only the first, so a second pass
removes the newly exposed leading literal: stripping twice is not the
same as stripping once. -/
theorem stripping_not_idempotent_on_double_doc :
    (minifyModuleBody false twoDocBody).length = 1 ∧
    (minifyModuleBody false (minifyModuleBody false twoDocBody)).length = 0 := by
  refine ⟨by decide, by decide⟩

/-- C8: optimize_project reports an error and produces no output
whenever the entrypoint string has no colon separator, or the entry
module (the part before the first colon) is not among the discovered
modules; both checks precede call-graph construction, pruning and
writing. -/
theorem input_errors_abort_run (modules : List (String × List Stmt)) (ep : String)
    (kd : Bool)
    (h : splitFirst ':' ep = none ∨
      ∀ em rest, splitFirst ':' ep = some (em, rest) → em ∉ modules.map Prod.fst) :
    ∃ msg, optimizeProject modules ep kd = Except.error msg := by
  rcases h with h | h
  · exact ⟨"Invalid entrypoint format: " ++ ep ++ ". Expected module:function.",
      by simp [optimizeProject, h]⟩
  · cases hsp : splitFirst ':' ep with
    | none =>
        exact ⟨"Invalid entrypoint format: " ++ ep ++ ". Expected module:function.",
          by simp [optimizeProject, hsp]⟩
    | some p =>
        obtain ⟨em, rest⟩ := p
        have hmem := h em rest hsp
        exact ⟨"Entrypoint module " ++ em ++ " not found under the input root.",
          by simp [optimizeProject, hsp, hmem]⟩

/-- C8 witness: a concrete colon-free entrypoint is rejected with an
error. -/
theorem input_errors_abort_run_witness :
    ∃ msg, optimizeProject [("app", [])] "nocolon" false = Except.error msg :=
  input_errors_abort_run [("app", [])] "nocolon" false (Or.inl (by decide))

/-- C9: the pruner keeps every method named init of a class whose own
fully-qualified name is reachable, whatever the reachable status of the
constructor itself, and does not rename it; the decision is internal to
the pruner, not a consequence of constructor membership in the reachable
set. -/
theorem init_kept_when_class_reachable (m : String) (R : List String) (kd : Bool)
    (e : Option String) (C : String) (b : List Stmt) (a : Bool)
    (h : classSymbol m C ∈ R) :
    ∃ b2,
      pruneStmt { moduleName := m, reachableSymbols := R, keepDocstrings := kd,
                  entryFunction := e } (some C) (Stmt.functionDef "__init__" b a)
        = some (Stmt.functionDef "__init__" b2 a) := by
  have hk : keepFunction ⟨m, R, kd, e⟩ (some C) "__init__" = true := by
    simp [keepFunction, h]
  exact ⟨pruneDefBody ⟨m, R, kd, e⟩ (some C) b, by simp [pruneStmt, hk, outputFunName]⟩

/-- C9 witness: concrete instance where the class is reachable while the
constructor name itself is not in the reachable set. -/
theorem init_kept_when_class_reachable_witness :
    ∃ b2,
      pruneStmt { moduleName := "m", reachableSymbols := ["m:C"], keepDocstrings := false,
                  entryFunction := none } (some "C")
          (Stmt.functionDef "__init__" [Stmt.passStmt] false)
        = some (Stmt.functionDef "__init__" b2 false) :=
  init_kept_when_class_reachable "m" ["m:C"] false none "C" [Stmt.passStmt] false (by decide)

/-- C10: the pruner recurses into kept function bodies and applies the
same test at every nesting depth.  First part: under a kept module-level
function f, a directly nested function g survives exactly when the
module-level name module:g is reachable or g equals the entry function
name, and is then transformed by the same body rule (including the entry
renaming).  Second part: under a class context the test uses the
method-shaped name module:Class.name, and for a name other than init the
declaration is removed exactly when that name is not reachable,
irrespective of the entry function. -/
theorem nested_functions_pruned_by_same_test :
    (∀ (m : String) (R : List String) (kd : Bool) (e : Option String)
        (f g : String) (gb : List Stmt) (ga af : Bool),
        symbolName m none f ∈ R →
        pruneStmt ⟨m, R, kd, e⟩ none (.functionDef f [.functionDef g gb ga] af)
          = some (.functionDef (outputFunName ⟨m, R, kd, e⟩ none f)
              (if symbolName m none g ∈ R ∨ e = some g then
                [Stmt.functionDef (outputFunName ⟨m, R, kd, e⟩ none g)
                  (pruneDefBody ⟨m, R, kd, e⟩ none gb) ga]
               else []) af)) ∧
    (∀ (m : String) (R : List String) (kd : Bool) (e : Option String)
        (C g : String) (gb : List Stmt) (ga : Bool),
        g ≠ "__init__" →
        (pruneStmt ⟨m, R, kd, e⟩ (some C) (.functionDef g gb ga) = none
          ↔ symbolName m (some C) g ∉ R)) := by
  constructor
  · intro m R kd e f g gb ga af hf
    have hkf : keepFunction ⟨m, R, kd, e⟩ none f = true := by simp [keepFunction, hf]
    by_cases hg : symbolName m none g ∈ R ∨ e = some g
    · have hkg : keepFunction ⟨m, R, kd, e⟩ none g = true := by
        rcases hg with hg | hg <;> simp [keepFunction, hg]
      simp [pruneStmt, hkf, pruneDefBody, isDocstring, hkg, hg, pruneBody]
    · push_neg at hg
      have hkg : keepFunction ⟨m, R, kd, e⟩ none g = false := by
        simp [keepFunction, hg.1, hg.2]
      simp [pruneStmt, hkf, pruneDefBody, isDocstring, hkg, hg.1, hg.2, pruneBody]
  · intro m R kd e C g gb ga hne
    have hkeq : keepFunction ⟨m, R, kd, e⟩ (some C) g
        = decide (symbolName m (some C) g ∈ R) := by
      simp [keepFunction, hne]
    by_cases hm : symbolName m (some C) g ∈ R
    · simp [pruneStmt, hkeq, hm]
    · simp [pruneStmt, hkeq, hm]

/-- C10 witness: concrete instances of both parts, with a reachable
outer function containing an unreachable nested function, and an
unreachable method-level declaration under a class. -/
theorem nested_functions_pruned_by_same_test_witness :
    (pruneStmt ⟨"m", ["m:f"], false, none⟩ none
        (.functionDef "f" [.functionDef "g" [Stmt.passStmt] false] false)
      = some (.functionDef (outputFunName ⟨"m", ["m:f"], false, none⟩ none "f")
          (if symbolName "m" none "g" ∈ ["m:f"] ∨ (none : Option String) = some "g" then
            [Stmt.functionDef (outputFunName ⟨"m", ["m:f"], false, none⟩ none "g")
              (pruneDefBody ⟨"m", ["m:f"], false, none⟩ none [Stmt.passStmt]) false]
           else []) false)) ∧
    (pruneStmt ⟨"m", ["m:f"], false, none⟩ (some "C")
        (.functionDef "g" [Stmt.passStmt] false) = none
      ↔ symbolName "m" (some "C") "g" ∉ ["m:f"]) :=
  ⟨nested_functions_pruned_by_same_test.1 "m" ["m:f"] false none "f" "g"
      [Stmt.passStmt] false false (by decide),
   nested_functions_pruned_by_same_test.2 "m" ["m:f"] false none "C" "g"
      [Stmt.passStmt] false (by decide)⟩

/-- A statement that is not a documentation literal survives the
module-docstring strip. -/
theorem mem_moduleDocStripped (kd : Bool) (s : Stmt) (body : List Stmt)
    (hs : isDocstring s = false) (h : s ∈ body) : s ∈ moduleDocStripped kd body := by
  cases body with
  | nil => cases h
  | cons s0 rest =>
      by_cases hc : (!kd && isDocstring s0) = true
      · rcases List.mem_cons.mp h with h | h
        · subst h; rw [hs] at hc; simp at hc
        · cases rest with
          | nil => cases h
          | cons r rs => simpa [moduleDocStripped, hc] using h
      · simpa [moduleDocStripped, hc] using h

/-- The entry function, present in a statement list at non-class level,
survives pruning of that list under its renamed name. -/
theorem entry_survives_pruneBody (ctx : PruneCtx) (e : String) (b : List Stmt) (a : Bool)
    (he : ctx.entryFunction = some e) :
    ∀ l : List Stmt, Stmt.functionDef e b a ∈ l →
      topLevelHasFunction (pruneBody ctx none l) (e ++ SUFFIX) = true := by
  intro l
  induction l with
  | nil => intro h; cases h
  | cons s r ih =>
      intro h
      rcases List.mem_cons.mp h with h | h
      · subst h
        have hk : keepFunction ctx none e = true := by simp [keepFunction, he]
        simp [pruneBody, pruneStmt, hk, outputFunName, he, topLevelHasFunction,
          isFunctionNamed]
      · cases hps : pruneStmt ctx none s with
        | none => simpa [pruneBody, hps] using ih h
        | some s2 =>
            have hb := ih h
            simp only [topLevelHasFunction] at hb ⊢
            simp only [pruneBody, hps, List.any_cons]
            rw [hb, Bool.or_true]

/-- The rename rule of the pruner, restated with a propositional
condition. -/
theorem outputFunName_eq (ctx : PruneCtx) (cc : Option String) (n : String) :
    outputFunName ctx cc n
      = if cc = none ∧ ctx.entryFunction = some n then n ++ SUFFIX else n := by
  cases cc with
  | none => by_cases he : ctx.entryFunction = some n <;> simp [outputFunName, he]
  | some c => simp [outputFunName]

/-- A kept class declaration keeps its name. -/
theorem pruneClassPost_shape (ctx : PruneCtx) (name : String) (pb : List Stmt)
    (out : Stmt) (h : pruneClassPost ctx name pb = some out) :
    ∃ b2, out = Stmt.classDef name b2 := by
  dsimp only [pruneClassPost] at h
  split at h
  · cases h
  · exact ⟨_, (Option.some_inj.mp h).symm⟩

/-- C1 amended: the entry function is always kept and renamed with the
canonical suffix in the pruned output of its module, whatever the
reachable set contains; and a declaration carries a renamed (suffixed)
name in the output exactly when it is a function outside any class
context whose name equals the entry function name, classes never being
renamed.  Hence in a module whose declarations have distinct names only
the entry function is renamed, while a nested or duplicate function of
the same name is renamed as well. -/
theorem entry_always_kept_and_rename_rule :
    (∀ (m : String) (R : List String) (kd : Bool) (e : String) (body : List Stmt)
        (b : List Stmt) (a : Bool),
        Stmt.functionDef e b a ∈ body →
        topLevelHasFunction
          (pruneModuleBody ⟨m, R, kd, some e⟩ body) (e ++ SUFFIX) = true) ∧
    (∀ (ctx : PruneCtx) (cc : Option String) (n : String) (b : List Stmt) (a : Bool)
        (out : Stmt),
        pruneStmt ctx cc (Stmt.functionDef n b a) = some out →
        ∃ b2, out = Stmt.functionDef
          (if cc = none ∧ ctx.entryFunction = some n then n ++ SUFFIX else n) b2 a) ∧
    (∀ (ctx : PruneCtx) (cc : Option String) (n : String) (b : List Stmt) (out : Stmt),
        pruneStmt ctx cc (Stmt.classDef n b) = some out →
        ∃ b2, out = Stmt.classDef n b2) := by
  refine ⟨?_, ?_, ?_⟩
  · intro m R kd e body b a h
    have hmem : Stmt.functionDef e b a ∈ moduleDocStripped kd body :=
      mem_moduleDocStripped kd _ body rfl h
    exact entry_survives_pruneBody ⟨m, R, kd, some e⟩ e b a rfl _ hmem
  · intro ctx cc n b a out h
    simp only [pruneStmt] at h
    split at h
    · refine ⟨pruneDefBody ctx cc b, ?_⟩
      rw [← Option.some_inj.mp h, outputFunName_eq]
    · cases h
  · intro ctx cc n b out h
    simp only [pruneStmt] at h
    exact pruneClassPost_shape ctx n _ out h

/-- C1 witness: concrete instances of all three parts. -/
theorem entry_always_kept_and_rename_rule_witness :
    (topLevelHasFunction
        (pruneModuleBody ⟨"m", [], false, some "f"⟩
          [Stmt.functionDef "f" [Stmt.passStmt] false]) ("f" ++ SUFFIX) = true) ∧
    (∃ b2, Stmt.functionDef "f__ma" [Stmt.passStmt] false
        = Stmt.functionDef
            (if (none : Option String) = none ∧ (some "f" : Option String) = some "f"
             then "f" ++ SUFFIX else "f") b2 false) ∧
    (∃ b2, Stmt.classDef "C" [Stmt.passStmt] = Stmt.classDef "C" b2) :=
  ⟨entry_always_kept_and_rename_rule.1 "m" [] false "f"
      [Stmt.functionDef "f" [Stmt.passStmt] false] [Stmt.passStmt] false
      (List.mem_singleton.mpr rfl),
   entry_always_kept_and_rename_rule.2.1 ⟨"m", [], false, some "f"⟩ none "f"
      [Stmt.passStmt] false (Stmt.functionDef "f__ma" [Stmt.passStmt] false) rfl,
   entry_always_kept_and_rename_rule.2.2 ⟨"m", ["m:C"], false, none⟩ none "C"
      [Stmt.passStmt] (Stmt.classDef "C" [Stmt.passStmt]) rfl⟩

/-- Recording a symbol does not touch the edge list. -/
theorem addSymbol_edges (st : AnalyzerState) (fq : String) :
    (addSymbol st fq).edges = st.edges := rfl

/-- Binding plain imports does not touch the edge list. -/
theorem bindImports_edges (ns : List ImportAlias) :
    ∀ st : AnalyzerState, (bindImports st ns).edges = st.edges := by
  induction ns with
  | nil => intro st; rfl
  | cons al rest ih => intro st; simpa [bindImports] using ih _

/-- Binding from-imports does not touch the edge list. -/
theorem bindFromImports_edges (ns : List ImportAlias) (m : String) :
    ∀ st : AnalyzerState, (bindFromImports st m ns).edges = st.edges := by
  induction ns with
  | nil => intro st; rfl
  | cons al rest ih => intro st; simpa [bindFromImports] using ih _

mutual

/-- Analyzing a call-free statement records no edge. -/
theorem anStmt_edges_callFree (m : String) (cc cf : Option String) (st : AnalyzerState) :
    (s : Stmt) → callFreeStmt s = true → (anStmt m cc cf st s).edges = st.edges
  | .functionDef n b _, h => by
      simp only [callFreeStmt] at h
      simp only [anStmt]
      exact anBody_edges_callFree m cc (some n) (addSymbol st _) b h
  | .classDef n b, h => by
      simp only [callFreeStmt] at h
      simp only [anStmt]
      exact anBody_edges_callFree m (some n) cf (addSymbol st _) b h
  | .importStmt ns, _ => by
      simp only [anStmt]
      exact bindImports_edges ns st
  | .importFrom none _, _ => rfl
  | .importFrom (some mm) ns, _ => by
      simp only [anStmt]
      exact bindFromImports_edges ns mm st
  | .exprStmt e, h => by
      simp only [callFreeStmt] at h
      simp only [anStmt]
      exact anExpr_edges_callFree m cc cf st e h
  | .assign _ v, h => by
      simp only [callFreeStmt] at h
      simp only [anStmt]
      exact anExpr_edges_callFree m cc cf st v h
  | .passStmt, _ => rfl
termination_by structural s => s

/-- Analyzing a call-free statement list records no edge. -/
theorem anBody_edges_callFree (m : String) (cc cf : Option String) (st : AnalyzerState) :
    (l : List Stmt) → callFreeBody l = true → (anBody m cc cf st l).edges = st.edges
  | [], _ => rfl
  | s :: r, h => by
      simp only [callFreeBody, Bool.and_eq_true] at h
      simp only [anBody]
      rw [anBody_edges_callFree m cc cf (anStmt m cc cf st s) r h.2,
        anStmt_edges_callFree m cc cf st s h.1]
termination_by structural l => l

/-- Analyzing a call-free expression records no edge. -/
theorem anExpr_edges_callFree (m : String) (cc cf : Option String) (st : AnalyzerState) :
    (e : Expr) → callFreeExpr e = true → (anExpr m cc cf st e).edges = st.edges
  | .nameRef _, _ => rfl
  | .strLit _, _ => rfl
  | .attrAccess b _, h => by
      simp only [callFreeExpr] at h
      simp only [anExpr]
      exact anExpr_edges_callFree m cc cf st b h
  | .call _ _, h => by simp [callFreeExpr] at h
termination_by structural e => e

/-- Analyzing a call-free expression list records no edge. -/
theorem anExprList_edges_callFree (m : String) (cc cf : Option String) (st : AnalyzerState) :
    (l : List Expr) → callFreeExprList l = true → (anExprList m cc cf st l).edges = st.edges
  | [], _ => rfl
  | e :: r, h => by
      simp only [callFreeExprList, Bool.and_eq_true] at h
      simp only [anExprList]
      rw [anExprList_edges_callFree m cc cf (anExpr m cc cf st e) r h.2,
        anExpr_edges_callFree m cc cf st e h.1]
termination_by structural l => l

end

/-- Merging the per-module edge lists of modules that produced none
yields the empty edge list. -/
theorem concatAll_edges_nil :
    ∀ mods : List (String × List Stmt),
      (∀ md ∈ mods, (analyzeModule md.1 md.2).edges = []) →
      concatAll ((mods.map fun m => analyzeModule m.1 m.2).map AnalyzerState.edges) = [] := by
  intro mods
  induction mods with
  | nil => intro _; rfl
  | cons md rest ih =>
      intro h
      simp only [List.map_cons, concatAll]
      rw [h md (List.mem_cons_self md rest), List.nil_append]
      exact ih fun x hx => h x (List.mem_cons_of_mem md hx)

/-- C5 amended: build_call_graph records only edges produced by call
expressions inside function or method bodies; a project with no call
expression anywhere yields an empty edge map, even when classes with
constructors are declared — in particular no synthetic
class-to-constructor edge is ever added, and reaching a class during
traversal does not reach its constructor through the edge map.
Constructor retention is instead implemented by compute_reachable_symbols
(for classes with a reachable method) and by the pruner (for reachable
classes). -/
theorem call_free_project_has_no_edges (modules : List (String × List Stmt)) (ep : String)
    (h : callFreeModules modules = true) :
    (buildCallGraph modules ep).edges = [] := by
  have hmod : ∀ md ∈ modules, (analyzeModule md.1 md.2).edges = [] := by
    intro md hm
    have hcf : callFreeBody md.2 = true := by
      simpa using List.all_eq_true.mp h md hm
    exact anBody_edges_callFree md.1 none none emptyAnalyzerState md.2 hcf
  show concatAll ((modules.map fun m => analyzeModule m.1 m.2).map AnalyzerState.edges) = []
  exact concatAll_edges_nil modules hmod

/-- C5 witness: the call-free one-class project with a constructor has an
empty edge map. -/
theorem call_free_project_has_no_edges_witness :
    (buildCallGraph callFreeProject "lib:main").edges = [] :=
  call_free_project_has_no_edges callFreeProject "lib:main" (by decide)

/-- The rename map contains every discovered module name, mapped to its
suffixed form. -/
theorem lookupA_moduleRenames :
    ∀ (names : List String) (n : String), n ∈ names →
      lookupA (moduleRenames names) n = some (suffixModuleName n) := by
  intro names
  induction names with
  | nil => intro n h; cases h
  | cons hd tl ih =>
      intro n h
      by_cases hh : hd = n
      · subst hh; simp [moduleRenames, lookupA]
      · rcases List.mem_cons.mp h with h | h
        · exact absurd h.symm hh
        · simpa [moduleRenames, lookupA, hh] using ih n h

/-- Alias rewriting maps every referenced name through the rename map. -/
theorem rewriteAliases_names (renames : List (String × String)) :
    ∀ ns : List ImportAlias,
      (rewriteAliases renames ns).map (fun al => al.name)
        = (ns.map (fun al => al.name)).map (applyRename renames) := by
  intro ns
  induction ns with
  | nil => rfl
  | cons al rest ih =>
      cases hl : lookupA renames al.name <;>
        simp [rewriteAliases, hl, applyRename, ih]

/-- ImportFrom case of the collector equation: the rewritten module
reference is the original one mapped through the rename map. -/
theorem importFrom_module_rewrite (renames : List (String × String))
    (h0 : lookupA renames "" = none) (mm : String) (ns : List ImportAlias) :
    importedModulesStmt (rewriteStmt renames (Stmt.importFrom (some mm) ns))
      = (importedModulesStmt (Stmt.importFrom (some mm) ns)).map (applyRename renames) := by
  by_cases hmm : mm = ""
  · subst hmm
    have h1 : rewriteStmt renames (Stmt.importFrom (some "") ns)
        = Stmt.importFrom (some "") ns := by
      simp [rewriteStmt]
    rw [h1]
    simp [importedModulesStmt, applyRename, h0]
  · cases hl : lookupA renames mm with
    | none =>
        have h1 : rewriteStmt renames (Stmt.importFrom (some mm) ns)
            = Stmt.importFrom (some mm) ns := by
          simp [rewriteStmt, hmm, hl]
        rw [h1]
        simp [importedModulesStmt, applyRename, hl]
    | some v =>
        have h1 : rewriteStmt renames (Stmt.importFrom (some mm) ns)
            = Stmt.importFrom (some v) ns := by
          simp [rewriteStmt, hmm, hl]
        rw [h1]
        simp [importedModulesStmt, applyRename, hl]

mutual

/-- After the import rewriter runs, the module references of a statement
are exactly the original ones mapped through the rename map (provided
the empty name is not a key, as holds for every discoverable module
name). -/
theorem importedModulesStmt_rewrite (renames : List (String × String))
    (h0 : lookupA renames "" = none) :
    (s : Stmt) → importedModulesStmt (rewriteStmt renames s)
      = (importedModulesStmt s).map (applyRename renames)
  | .importStmt ns => by
      simp only [rewriteStmt, importedModulesStmt]
      exact rewriteAliases_names renames ns
  | .importFrom none _ => rfl
  | .importFrom (some mm) ns => importFrom_module_rewrite renames h0 mm ns
  | .functionDef _ b _ => by
      simp only [rewriteStmt, importedModulesStmt]
      exact importedModulesBody_rewrite renames h0 b
  | .classDef _ b => by
      simp only [rewriteStmt, importedModulesStmt]
      exact importedModulesBody_rewrite renames h0 b
  | .exprStmt _ => rfl
  | .assign _ _ => rfl
  | .passStmt => rfl
termination_by structural s => s

/-- Statement-list version of importedModulesStmt_rewrite. -/
theorem importedModulesBody_rewrite (renames : List (String × String))
    (h0 : lookupA renames "" = none) :
    (l : List Stmt) → importedModulesBody (rewriteBody renames l)
      = (importedModulesBody l).map (applyRename renames)
  | [] => rfl
  | s :: r => by
      simp only [rewriteBody, importedModulesBody, List.map_append]
      rw [importedModulesStmt_rewrite renames h0 s,
        importedModulesBody_rewrite renames h0 r]
termination_by structural l => l

end

/-- C6: every discovered module name appears as a key of the rename map,
mapped to its form with the canonical suffix appended to each dotted
component; and the import rewriter maps every module reference of a tree
(Import alias names at any depth, and non-empty ImportFrom modules)
through the map, replacing mapped names and leaving unmapped ones —
imports of non-discovered modules — unchanged. -/
theorem rename_total_and_rewrites_all :
    (∀ (names : List String) (n : String), n ∈ names →
        lookupA (moduleRenames names) n = some (suffixModuleName n)) ∧
    (∀ renames : List (String × String), lookupA renames "" = none →
        ∀ body : List Stmt,
          importedModulesBody (rewriteBody renames body)
            = (importedModulesBody body).map (applyRename renames)) :=
  ⟨lookupA_moduleRenames, fun renames h0 body => importedModulesBody_rewrite renames h0 body⟩

/-- C6 witness: the rename map of a two-module project maps lib to its
suffixed form, and rewriting a body importing the discovered lib and the
non-discovered os maps both references through the map. -/
theorem rename_total_and_rewrites_all_witness :
    lookupA (moduleRenames ["app", "lib"]) "lib" = some (suffixModuleName "lib") ∧
    importedModulesBody (rewriteBody (moduleRenames ["app", "lib"])
        [Stmt.importFrom (some "lib") [{ name := "DataFrame", asname := none }],
         Stmt.importFrom (some "os") []])
      = (importedModulesBody
          [Stmt.importFrom (some "lib") [{ name := "DataFrame", asname := none }],
           Stmt.importFrom (some "os") []]).map (applyRename (moduleRenames ["app", "lib"])) :=
  ⟨rename_total_and_rewrites_all.1 ["app", "lib"] "lib" (by decide),
   rename_total_and_rewrites_all.2 (moduleRenames ["app", "lib"]) (by decide)
     [Stmt.importFrom (some "lib") [{ name := "DataFrame", asname := none }],
      Stmt.importFrom (some "os") []]⟩

/-- The body produced by the declaration-level docstring handling of the
minifier is never empty. -/
theorem minifyDefBody_not_empty (kd : Bool) :
    ∀ b : List Stmt, (minifyDefBody kd b).isEmpty = false := by
  intro b
  match b with
  | [] => rfl
  | s :: rest =>
      simp only [minifyDefBody]
      by_cases hc : (!kd && isDocstring s) = true
      · rw [if_pos hc]
        cases rest with
        | nil => rfl
        | cons r rs => simp [minifyBody]
      · rw [if_neg hc]; rfl

mutual

/-- Minified statements are well-formed: every declaration body in the
output is non-empty. -/
theorem wf_minifyStmt (kd : Bool) : (s : Stmt) → wfStmt (minifyStmt kd s) = true
  | .functionDef n b a => by
      simp only [minifyStmt, wfStmt, Bool.and_eq_true]
      exact ⟨by simp [minifyDefBody_not_empty kd b], wf_minifyDefBody kd b⟩
  | .classDef n b => by
      simp only [minifyStmt, wfStmt, Bool.and_eq_true]
      exact ⟨by simp [minifyDefBody_not_empty kd b], wf_minifyDefBody kd b⟩
  | .importStmt _ => rfl
  | .importFrom _ _ => rfl
  | .exprStmt _ => rfl
  | .assign _ _ => rfl
  | .passStmt => rfl
termination_by structural s => s

/-- Declaration bodies produced by the minifier are well-formed. -/
theorem wf_minifyDefBody (kd : Bool) : (b : List Stmt) → wfList (minifyDefBody kd b) = true
  | [] => rfl
  | s :: rest => by
      have hb := wf_minifyBody kd rest
      have hs := wf_minifyStmt kd s
      simp only [minifyDefBody]
      by_cases hc : (!kd && isDocstring s) = true
      · rw [if_pos hc]
        cases rest with
        | nil => rfl
        | cons r rs => exact hb
      · rw [if_neg hc]
        simp only [wfList, Bool.and_eq_true]
        exact ⟨hs, hb⟩
termination_by structural b => b

/-- Statement lists produced by the minifier are well-formed. -/
theorem wf_minifyBody (kd : Bool) : (l : List Stmt) → wfList (minifyBody kd l) = true
  | [] => rfl
  | s :: r => by
      simp only [minifyBody, wfList, Bool.and_eq_true]
      exact ⟨wf_minifyStmt kd s, wf_minifyBody kd r⟩
termination_by structural l => l

end

mutual

/-- Stripping is the identity on a well-formed statement with no leading
documentation literal in any declaration body. -/
theorem minifyStmt_id : (s : Stmt) → noLeadDocStmt s = true → wfStmt s = true →
    minifyStmt false s = s
  | .functionDef n b a, hd, hw => by
      simp only [noLeadDocStmt, Bool.and_eq_true, Bool.not_eq_true'] at hd
      simp only [wfStmt, Bool.and_eq_true, Bool.not_eq_true'] at hw
      simp only [minifyStmt]
      rw [minifyDefBody_id b hd.1 hd.2 hw.2 (by simpa using hw.1)]
  | .classDef n b, hd, hw => by
      simp only [noLeadDocStmt, Bool.and_eq_true, Bool.not_eq_true'] at hd
      simp only [wfStmt, Bool.and_eq_true, Bool.not_eq_true'] at hw
      simp only [minifyStmt]
      rw [minifyDefBody_id b hd.1 hd.2 hw.2 (by simpa using hw.1)]
  | .importStmt _, _, _ => rfl
  | .importFrom _ _, _, _ => rfl
  | .exprStmt _, _, _ => rfl
  | .assign _ _, _, _ => rfl
  | .passStmt, _, _ => rfl
termination_by structural s => s

/-- Stripping is the identity on a non-empty well-formed declaration body
whose head is not a documentation literal. -/
theorem minifyDefBody_id : (b : List Stmt) → headIsDoc b = false → noLeadDocList b = true →
    wfList b = true → b ≠ [] → minifyDefBody false b = b
  | [], _, _, _, hne => absurd rfl hne
  | s :: rest, hh, hnl, hw, _ => by
      simp only [headIsDoc] at hh
      simp only [noLeadDocList, Bool.and_eq_true] at hnl
      simp only [wfList, Bool.and_eq_true] at hw
      simp only [minifyDefBody]
      rw [if_neg (by simp [hh])]
      rw [minifyStmt_id s hnl.1 hw.1, minifyBody_id rest hnl.2 hw.2]
termination_by structural b => b

/-- Stripping is the identity on a well-formed statement list with no
leading documentation literal in any declaration body. -/
theorem minifyBody_id : (l : List Stmt) → noLeadDocList l = true → wfList l = true →
    minifyBody false l = l
  | [], _, _ => rfl
  | s :: r, hnl, hw => by
      simp only [noLeadDocList, Bool.and_eq_true] at hnl
      simp only [wfList, Bool.and_eq_true] at hw
      simp only [minifyBody]
      rw [minifyStmt_id s hnl.1 hw.1, minifyBody_id r hnl.2 hw.2]
termination_by structural l => l

end

/-- The leading-docstring strip is the identity when the head is not a
documentation literal. -/
theorem stripLeadingDoc_id (kd : Bool) (body : List Stmt) (h : headIsDoc body = false) :
    stripLeadingDoc kd body = body := by
  cases body with
  | nil => rfl
  | cons s r =>
      simp only [headIsDoc] at h
      simp [stripLeadingDoc, h]

/-- C7 amended: documentation-literal stripping applied twice agrees with
a single application on every tree whose once-stripped form has no body
beginning with a documentation literal; the double-literal counterexample
shows this proviso is exactly what can fail (a second pass removes the
newly exposed leading string literal). -/
theorem doc_stripping_idempotent_without_leading_doc (body : List Stmt)
    (h : noLeadingDocModule (minifyModuleBody false body) = true) :
    minifyModuleBody false (minifyModuleBody false body) = minifyModuleBody false body := by
  have hwf : wfList (minifyModuleBody false body) = true :=
    wf_minifyBody false (stripLeadingDoc false body)
  simp only [noLeadingDocModule, Bool.and_eq_true, Bool.not_eq_true'] at h
  show minifyBody false (stripLeadingDoc false (minifyModuleBody false body))
      = minifyModuleBody false body
  rw [stripLeadingDoc_id false _ h.1]
  exact minifyBody_id _ h.2 hwf

/-- C7 witness: a module with one plain function is a fixed point of the
stripping pass, so a second application changes nothing. -/
theorem doc_stripping_idempotent_without_leading_doc_witness :
    minifyModuleBody false (minifyModuleBody false [Stmt.functionDef "f" [Stmt.passStmt] false])
      = minifyModuleBody false [Stmt.functionDef "f" [Stmt.passStmt] false] :=
  doc_stripping_idempotent_without_leading_doc
    [Stmt.functionDef "f" [Stmt.passStmt] false] (by decide)

end MinimalApp
